import Mathlib

/-!
Verification development for the GeoCore provider (`pygeoapi/provider/cgp.py`).

The provider translates abstract search requests into backend query
parameters, repairs and parses the backend's non-standard JSON response
text, and reshapes decoded records into GeoJSON features.

Shallow embedding conventions used throughout this file:
* text is modelled as `List Nat` of Unicode code points (`Str` below), so
  that lone surrogates produced by Python's JSON string decoder are
  representable;
* fallible Python code is modelled with `Except PyExc`, where `PyExc`
  enumerates the exception classes the source can raise or catch;
* recursive scanners are written with an explicit fuel argument (always
  called with more fuel than the input length) so that all definitions
  reduce inside the kernel; fuel-irrelevance lemmas recover clean
  equations for the wrappers;
* Python `dict` objects are insertion-ordered association lists with
  unique keys; `dict.pop`, `dict.get` and item assignment are modelled by
  the corresponding association-list operations on the first occurrence
  of a key.
-/

set_option autoImplicit false
set_option maxRecDepth 100000

namespace Cgp

/-- Text as a list of Unicode code points. -/
abbrev Str := List Nat

/-- Convert a Lean string literal to its code-point list (for concrete inputs). -/
def cs (s : String) : Str := s.data.map Char.toNat

/-- Code point of the double-quote character. -/
def qc : Nat := 34

/-- Code point of the newline character (the only character `.` does not match). -/
def nlc : Nat := 10

/-- Code point of the backslash character. -/
def bsc : Nat := 92

/-- Exception classes raised or caught by the source. -/
inductive PyExc
  | jsonDecodeError
  | unicodeEncodeError
  | unicodeDecodeError
  | typeError
  | keyError
  | attributeError
  | valueError
  | providerQueryError
  | providerConnectionError
  | providerNoDataError
  | providerInvalidQueryError
  | providerItemNotFoundError
deriving DecidableEq

/-- A JSON value as produced by Python's `json.loads`.

Integers are exact (Python ints are arbitrary precision); a float keeps
the numeral text that was parsed (the claims never compare two different
spellings of the same float, so the syntactic representation is enough).
`NaN`, `Infinity` and `-Infinity`, which Python's decoder accepts, are
stored as floats with those raw texts. -/
inductive JsonValue
  | jnull
  | jbool (b : Bool)
  | jint (n : Int)
  | jfloat (raw : Str)
  | jstr (s : Str)
  | jarr (elems : List JsonValue)
  | jobj (members : List (Str × JsonValue))


/-! ### Python dict operations on insertion-ordered association lists -/

/-- Value of the first entry with key `k` (`dict.__getitem__` / successful `dict.get`). -/
def jlookup (m : List (Str × JsonValue)) (k : Str) : Option JsonValue :=
  match m with
  | [] => none
  | (k2, v) :: rest => if k2 = k then some v else jlookup rest k

/-- Remove the entry with key `k` (the removal half of `dict.pop`). -/
def eraseKey (m : List (Str × JsonValue)) (k : Str) : List (Str × JsonValue) :=
  match m with
  | [] => []
  | (k2, v) :: rest => if k2 = k then rest else (k2, v) :: eraseKey rest k

/-- `d[k] = v`: update the first entry with key `k` in place, else append. -/
def dictSet (m : List (Str × JsonValue)) (k : Str) (v : JsonValue) : List (Str × JsonValue) :=
  match m with
  | [] => [(k, v)]
  | (k2, v2) :: rest => if k2 = k then (k2, v) :: rest else (k2, v2) :: dictSet rest k v

/-- Python truthiness of a decoded JSON value.

A float is falsy exactly when its numeral denotes zero; for the numerals
the decoder produces this is the case exactly when the mantissa has a
digit and all its digits are `0` (`NaN` and the infinities have no digit
and are truthy).  Extreme exponents that underflow to `0.0` in IEEE
arithmetic are not modelled. -/
def pyTruthy : JsonValue → Bool
  | .jnull => false
  | .jbool b => b
  | .jint n => n != 0
  | .jfloat raw =>
    let mantissa := raw.takeWhile (fun c => c ≠ 101 ∧ c ≠ 69)
    let digits := mantissa.filter (fun c => 48 ≤ c ∧ c ≤ 57)
    digits.isEmpty || digits.any (fun c => c ≠ 48)
  | .jstr s => !s.isEmpty
  | .jarr l => !l.isEmpty
  | .jobj m => !m.isEmpty

/-- `obj.get(k, d)`: mapping lookup with default; any non-mapping receiver
raises `AttributeError` (lists, strings and numbers have no `get`). -/
def pyGetD (obj : JsonValue) (k : Str) (d : JsonValue) : Except PyExc JsonValue :=
  match obj with
  | .jobj m => .ok (match jlookup m k with | some v => v | none => d)
  | _ => .error .attributeError

/-- `for item in x`: iterating a list yields its elements, a string its
one-character substrings, a mapping its keys; other values raise `TypeError`. -/
def pyIter : JsonValue → Except PyExc (List JsonValue)
  | .jarr l => .ok l
  | .jstr s => .ok (s.map (fun c => .jstr [c]))
  | .jobj m => .ok (m.map (fun kv => .jstr kv.1))
  | _ => .error .typeError

/-! ### Python's `json.loads` (the default strict decoder)

Grammar as implemented by `json/decoder.py`: optional whitespace around a
single document; objects, arrays, strings with the standard escapes
(`\uXXXX` pairs of surrogates are combined, lone surrogates are kept),
numbers matching `-?(0|[1-9]\d*)(\.\d+)?([eE][+-]?\d+)?`, the literals
`true`, `false`, `null`, and the non-standard `NaN`, `Infinity`,
`-Infinity`.  Control characters below `U+0020` are rejected inside
strings, as are unknown escapes.  A leading BOM is rejected. -/

/-- JSON whitespace characters (space, tab, newline, carriage return). -/
def isJsonWs (c : Nat) : Bool := c = 32 || c = 9 || c = 10 || c = 13

/-- Skip JSON whitespace. -/
def skipWs (l : Str) : Str := l.dropWhile isJsonWs

/-- Value of a hexadecimal digit. -/
def hexVal (c : Nat) : Option Nat :=
  if 48 ≤ c ∧ c ≤ 57 then some (c - 48)
  else if 97 ≤ c ∧ c ≤ 102 then some (c - 97 + 10)
  else if 65 ≤ c ∧ c ≤ 70 then some (c - 65 + 10)
  else none

/-- Decimal digit test. -/
def isDigit (c : Nat) : Bool := 48 ≤ c && c ≤ 57

/-- Decode one JSON string escape sequence (the backslash already
consumed): the decoded code point and the remaining input, or `none` for
an invalid escape.  Valid surrogate pairs are combined; lone surrogates
are kept. -/
def escStep (e : Nat) (r2 : Str) : Option (Nat × Str) :=
  if e = 34 then some (34, r2)
  else if e = 92 then some (92, r2)
  else if e = 47 then some (47, r2)
  else if e = 98 then some (8, r2)
  else if e = 102 then some (12, r2)
  else if e = 110 then some (10, r2)
  else if e = 114 then some (13, r2)
  else if e = 116 then some (9, r2)
  else if e = 117 then
    match r2 with
    | h1 :: h2 :: h3 :: h4 :: r3 =>
      (match hexVal h1, hexVal h2, hexVal h3, hexVal h4 with
       | some a, some b, some c2, some d =>
         let cp := ((a * 16 + b) * 16 + c2) * 16 + d
         if 0xD800 ≤ cp ∧ cp ≤ 0xDBFF then
           match r3 with
           | 92 :: 117 :: g1 :: g2 :: g3 :: g4 :: r4 =>
             (match hexVal g1, hexVal g2, hexVal g3, hexVal g4 with
              | some a2, some b2, some c3, some d2 =>
                let cp2 := ((a2 * 16 + b2) * 16 + c3) * 16 + d2
                if 0xDC00 ≤ cp2 ∧ cp2 ≤ 0xDFFF then
                  some (0x10000 + (cp - 0xD800) * 0x400 + (cp2 - 0xDC00), r4)
                else some (cp, r3)
              | _, _, _, _ => some (cp, r3))
           | _ => some (cp, r3)
         else some (cp, r3)
       | _, _, _, _ => none)
    | _ => none
  else none

/-- Parse the body of a JSON string literal (the opening quote already
consumed).  Returns the decoded code points and the remaining input. -/
def parseJString : Nat → Str → Option (Str × Str)
  | 0, _ => none
  | _ + 1, [] => none
  | fu + 1, c :: r =>
    if c = 34 then some ([], r)
    else if c < 32 then none
    else if c = 92 then
      match r with
      | [] => none
      | e :: r2 =>
        (match escStep e r2 with
         | some (ch, rest) =>
           (match parseJString fu rest with
            | some (s, rr) => some (ch :: s, rr)
            | none => none)
         | none => none)
    else
      match parseJString fu r with
      | some (s, rest) => some (c :: s, rest)
      | none => none

/-- Parse a JSON number per the decoder's `NUMBER_RE`; integers are exact,
floats keep their raw text. -/
def parseNumber (l : Str) : Except PyExc (JsonValue × Str) :=
  let (sign, l1) := match l with
    | 45 :: r => (true, r)
    | _ => (false, l)
  match l1 with
  | [] => .error .jsonDecodeError
  | d :: r =>
    if ¬ (isDigit d) then .error .jsonDecodeError
    else
      let (ipart, r2) :=
        if d = 48 then ([48], r)
        else ((d :: r).takeWhile isDigit, (d :: r).dropWhile isDigit)
      let (fpart, r3) := match r2 with
        | 46 :: rf =>
          let ds := rf.takeWhile isDigit
          if ds.isEmpty then ([], r2) else (46 :: ds, rf.dropWhile isDigit)
        | _ => ([], r2)
      let (epart, r4) := match r3 with
        | e :: re =>
          if e = 101 ∨ e = 69 then
            let (es, re2) := match re with
              | 43 :: rr => ([43], rr)
              | 45 :: rr => ([45], rr)
              | _ => ([], re)
            let ds := re2.takeWhile isDigit
            if ds.isEmpty then ([], r3) else (e :: es ++ ds, re2.dropWhile isDigit)
          else ([], r3)
        | _ => ([], r3)
      if fpart.isEmpty ∧ epart.isEmpty then
        let mag : Nat := ipart.foldl (fun acc c => acc * 10 + (c - 48)) 0
        .ok (.jint (if sign then -(mag : Int) else (mag : Int)), r4)
      else
        .ok (.jfloat ((if sign then [45] else []) ++ ipart ++ fpart ++ epart), r4)

mutual

/-- Parse one JSON value at the given position (no leading whitespace). -/
def parseValue : Nat → Str → Except PyExc (JsonValue × Str)
  | 0, _ => .error .jsonDecodeError
  | fu + 1, l =>
    match l with
    | [] => .error .jsonDecodeError
    | 123 :: r =>
      (match skipWs r with
       | 125 :: rest => .ok (.jobj [], rest)
       | r2 =>
         match parseMembers fu r2 [] with
         | .ok (m, rest) => .ok (.jobj m, rest)
         | .error e => .error e)
    | 91 :: r =>
      (match skipWs r with
       | 93 :: rest => .ok (.jarr [], rest)
       | r2 =>
         match parseElems fu r2 with
         | .ok (es, rest) => .ok (.jarr es, rest)
         | .error e => .error e)
    | 34 :: r =>
      (match parseJString (r.length + 1) r with
       | some (s, rest) => .ok (.jstr s, rest)
       | none => .error .jsonDecodeError)
    | 116 :: 114 :: 117 :: 101 :: r => .ok (.jbool true, r)
    | 102 :: 97 :: 108 :: 115 :: 101 :: r => .ok (.jbool false, r)
    | 110 :: 117 :: 108 :: 108 :: r => .ok (.jnull, r)
    | 78 :: 97 :: 78 :: r => .ok (.jfloat [78, 97, 78], r)
    | 73 :: 110 :: 102 :: 105 :: 110 :: 105 :: 116 :: 121 :: r =>
      .ok (.jfloat (cs "Infinity"), r)
    | 45 :: 73 :: 110 :: 102 :: 105 :: 110 :: 105 :: 116 :: 121 :: r =>
      .ok (.jfloat (cs "-Infinity"), r)
    | _ => parseNumber l

/-- Parse the members of an object after `{` (position at a key). -/
def parseMembers : Nat → Str → List (Str × JsonValue) →
    Except PyExc (List (Str × JsonValue) × Str)
  | 0, _, _ => .error .jsonDecodeError
  | fu + 1, l, acc =>
    match l with
    | 34 :: r =>
      (match parseJString (r.length + 1) r with
       | some (k, rest) =>
         (match skipWs rest with
          | 58 :: r2 =>
            (match parseValue fu (skipWs r2) with
             | .ok (v, r3) =>
               let acc2 := dictSet acc k v
               (match skipWs r3 with
                | 44 :: r4 => parseMembers fu (skipWs r4) acc2
                | 125 :: r4 => .ok (acc2, r4)
                | _ => .error .jsonDecodeError)
             | .error e => .error e)
          | _ => .error .jsonDecodeError)
       | none => .error .jsonDecodeError)
    | _ => .error .jsonDecodeError

/-- Parse the elements of an array after `[` (position at a value). -/
def parseElems : Nat → Str → Except PyExc (List JsonValue × Str)
  | 0, _ => .error .jsonDecodeError
  | fu + 1, l =>
    match parseValue fu l with
    | .ok (v, r) =>
      (match skipWs r with
       | 44 :: r2 =>
         (match parseElems fu (skipWs r2) with
          | .ok (es, rest) => .ok (v :: es, rest)
          | .error e => .error e)
       | 93 :: r2 => .ok ([v], r2)
       | _ => .error .jsonDecodeError)
    | .error e => .error e

end

/-- `json.loads` on text: skip surrounding whitespace, parse one document,
reject extra data and a leading BOM. -/
def json_loads (s : Str) : Except PyExc JsonValue :=
  if s.take 1 = [0xFEFF] then .error .jsonDecodeError
  else
    match parseValue (s.length + 1) (skipWs s) with
    | .ok (v, rest) => if skipWs rest = [] then .ok v else .error .jsonDecodeError
    | .error e => .error e

/-! ### String helpers used by `_parse_json` and `_valid_id` -/

/-- `s.replace(pat, rep)`, fuel-based.  Scans left to right and replaces
non-overlapping occurrences; the empty pattern never occurs in the source
and is treated as matching nowhere. -/
def pyReplaceF (pat rep : Str) : Nat → Str → Str
  | 0, s => s
  | _ + 1, [] => []
  | fu + 1, x :: r =>
    if pat ≠ [] ∧ (x :: r).take pat.length = pat then
      rep ++ pyReplaceF pat rep fu ((x :: r).drop pat.length)
    else
      x :: pyReplaceF pat rep fu r

/-- `s.replace(pat, rep)`. -/
def pyReplace (pat rep s : Str) : Str := pyReplaceF pat rep (s.length + 1) s

/-- `s.strip(chars)`: remove the given characters from both ends. -/
def pyStrip (chars : List Nat) (s : Str) : Str :=
  ((s.dropWhile (· ∈ chars)).reverse.dropWhile (· ∈ chars)).reverse

/-- `s.encode('latin1')`: identity on code points up to 255, otherwise
`UnicodeEncodeError`.  Byte values and code points coincide. -/
def latin1Encode (s : Str) : Except PyExc Str :=
  if s.all (· ≤ 255) then .ok s else .error .unicodeEncodeError

/-- Octal digit test. -/
def isOctal (c : Nat) : Bool := 48 ≤ c && c ≤ 55

/-- `bytes.decode('unicode_escape')`, fuel-based: processes Python string
escape sequences; bytes outside escapes map to themselves (latin-1).
Unknown escapes keep the backslash; truncated `\x`/`\u`/`\U` escapes and
`\N{...}` (whose name database is not modelled, and which cannot occur in
the claims proved here) raise `UnicodeDecodeError`; a trailing backslash
raises `ValueError` as in CPython. -/
def unicodeEscF : Nat → Str → Except PyExc Str
  | 0, s => .ok s
  | _ + 1, [] => .ok []
  | fu + 1, b :: r =>
    if b ≠ 92 then
      match unicodeEscF fu r with
      | .ok t => .ok (b :: t)
      | .error e => .error e
    else
      match r with
      | [] => .error .valueError
      | e :: r2 =>
        let emit (c : Nat) (rest : Str) : Except PyExc Str :=
          match unicodeEscF fu rest with
          | .ok t => .ok (c :: t)
          | .error er => .error er
        if e = 10 then unicodeEscF fu r2
        else if e = 92 then emit 92 r2
        else if e = 39 then emit 39 r2
        else if e = 34 then emit 34 r2
        else if e = 97 then emit 7 r2
        else if e = 98 then emit 8 r2
        else if e = 102 then emit 12 r2
        else if e = 110 then emit 10 r2
        else if e = 114 then emit 13 r2
        else if e = 116 then emit 9 r2
        else if e = 118 then emit 11 r2
        else if isOctal e then
          match r2 with
          | d2 :: d3 :: r3 =>
            if isOctal d2 ∧ isOctal d3 then
              emit ((e - 48) * 64 + (d2 - 48) * 8 + (d3 - 48)) r3
            else if isOctal d2 then emit ((e - 48) * 8 + (d2 - 48)) (d3 :: r3)
            else emit (e - 48) (d2 :: d3 :: r3)
          | [d2] => if isOctal d2 then emit ((e - 48) * 8 + (d2 - 48)) [] else emit (e - 48) [d2]
          | [] => emit (e - 48) []
        else if e = 120 then
          match r2 with
          | h1 :: h2 :: r3 =>
            match hexVal h1, hexVal h2 with
            | some a, some b2 => emit (a * 16 + b2) r3
            | _, _ => .error .unicodeDecodeError
          | _ => .error .unicodeDecodeError
        else if e = 117 then
          match r2 with
          | h1 :: h2 :: h3 :: h4 :: r3 =>
            match hexVal h1, hexVal h2, hexVal h3, hexVal h4 with
            | some a, some b2, some c2, some d2 =>
              emit (((a * 16 + b2) * 16 + c2) * 16 + d2) r3
            | _, _, _, _ => .error .unicodeDecodeError
          | _ => .error .unicodeDecodeError
        else if e = 85 then
          match r2 with
          | h1 :: h2 :: h3 :: h4 :: h5 :: h6 :: h7 :: h8 :: r3 =>
            match hexVal h1, hexVal h2, hexVal h3, hexVal h4,
                  hexVal h5, hexVal h6, hexVal h7, hexVal h8 with
            | some a, some b2, some c2, some d2, some a2, some b3, some c3, some d3 =>
              let cp := (((((((a * 16 + b2) * 16 + c2) * 16 + d2) * 16 + a2) * 16 + b3)
                * 16 + c3) * 16 + d3)
              if cp ≤ 0x10FFFF then emit cp r3 else .error .unicodeDecodeError
            | _, _, _, _, _, _, _, _ => .error .unicodeDecodeError
          | _ => .error .unicodeDecodeError
        else if e = 78 then .error .unicodeDecodeError
        else
          match unicodeEscF fu r2 with
          | .ok t => .ok (92 :: e :: t)
          | .error er => .error er

/-- `bytes.decode('unicode_escape')`. -/
def unicodeEsc (s : Str) : Except PyExc Str := unicodeEscF (s.length + 1) s

/-- The `unescape` replacement callback of `_parse_json`:
`match.group(0).encode('latin1').decode('unicode_escape').replace('""', '"').strip('"')`. -/
def pyUnescape (m : Str) : Except PyExc Str :=
  match latin1Encode m with
  | .error e => .error e
  | .ok bs =>
    match unicodeEsc bs with
    | .error e => .error e
    | .ok u => .ok (pyStrip [qc] (pyReplace [qc, qc] [qc] u))

/-! ### `ENCODED_JSON_REGEX.sub(unescape, body)`

The pattern `("\"\".+?\"\"")` matches three consecutive double quotes, a
non-empty non-greedy run of characters other than newline, and three more
consecutive double quotes.  `re.sub` replaces the leftmost matches,
resuming the scan after each replaced match; an exception raised by the
replacement callback propagates. -/

/-- Whether the text starts with three consecutive double quotes. -/
def startsTriple : Str → Bool
  | a :: b :: c :: _ => a = qc && b = qc && c = qc
  | _ => false

/-- Whether the text contains three consecutive double quotes anywhere. -/
def hasTriple : Str → Bool
  | a :: b :: c :: r => (a = qc && b = qc && c = qc) || hasTriple (b :: c :: r)
  | _ => false

/-- Non-greedy search for the closing `"""`: the shortest non-empty
newline-free content followed by three quotes.  Returns content and the
input after the closing quotes. -/
def findClose : Str → Option (Str × Str)
  | [] => none
  | x :: l =>
    if x = nlc then none
    else if startsTriple l then some ([x], l.drop 3)
    else
      match findClose l with
      | some (c, r) => some (x :: c, r)
      | none => none

/-- One regex-sub scan, fuel-based: at a triple quote, try to close the
match; on success replace `group(0)` by the callback result and resume
after the match, otherwise (and at every other character) advance one
position. -/
def regexSubF : Nat → Str → Except PyExc Str
  | 0, s => .ok s
  | _ + 1, [] => .ok []
  | fu + 1, x :: l =>
    if startsTriple (x :: l) then
      match findClose (l.drop 2) with
      | some (cnt, r) =>
        (match pyUnescape ([qc, qc, qc] ++ cnt ++ [qc, qc, qc]) with
         | .error e => .error e
         | .ok u =>
           match regexSubF fu r with
           | .ok rest => .ok (u ++ rest)
           | .error e => .error e)
      | none =>
        (match regexSubF fu l with
         | .ok rest => .ok (x :: rest)
         | .error e => .error e)
    else
      match regexSubF fu l with
      | .ok rest => .ok (x :: rest)
      | .error e => .error e

/-- `ENCODED_JSON_REGEX.sub(unescape, body)`. -/
def regexSub (s : Str) : Except PyExc Str := regexSubF (s.length + 1) s

/-- `GeoCoreProvider._parse_json(body)`: empty body decodes to `{}`; the
regex repair runs outside the `try` block, so its exceptions propagate;
`json.JSONDecodeError` from `json.loads` is swallowed and, through the
`finally: return result`, yields the initial `{}`. -/
def parse_json (body : Str) : Except PyExc JsonValue :=
  if body = [] then .ok (.jobj [])
  else
    match regexSub body with
    | .error e => .error e
    | .ok repaired =>
      match json_loads repaired with
      | .ok v => .ok v
      | .error _ => .ok (.jobj [])

/-! ### `_valid_id`: UUID validation via `uuid.UUID(identifier)`

`uuid.UUID(hex=...)` removes every occurrence of `urn:` and then of
`uuid:`, strips curly braces from both ends, removes all hyphens,
requires exactly 32 remaining characters, converts them with
`int(hex, 16)` (which tolerates surrounding whitespace, an optional
sign, an optional `0x` prefix and single underscores between digits),
and finally requires the value to fit in 128 bits.  `_valid_id` catches
`TypeError`, `ValueError` and `AttributeError`, so every failure —
including non-string identifiers, whose `.replace` raises
`AttributeError` — yields `False`. -/

/-- Whitespace accepted by `int(s, 16)` (the ASCII part of Python's set). -/
def isPyIntWs (c : Nat) : Bool :=
  c = 9 || c = 10 || c = 11 || c = 12 || c = 13 || c = 32 ||
  c = 28 || c = 29 || c = 30 || c = 31 || c = 133 || c = 160

/-- Hex digits separated by optional single underscores, accumulating the value. -/
def hexRun (acc : Nat) : Str → Option Nat
  | [] => some acc
  | c :: r =>
    match hexVal c with
    | some v => hexRun (acc * 16 + v) r
    | none =>
      if c = 95 then
        match r with
        | c2 :: r2 =>
          (match hexVal c2 with
           | some v2 => hexRun (acc * 16 + v2) r2
           | none => none)
        | [] => none
      else none

/-- A hex digit run that must begin with a digit. -/
def hexBody (t : Str) : Option Nat :=
  match t with
  | [] => none
  | c :: r =>
    match hexVal c with
    | some v => hexRun v r
    | none => none

/-- Digits of `int(s, 16)` after sign removal: an optional `0x`/`0X`
prefix, after which one leading underscore is allowed. -/
def pyInt16core (t : Str) : Option Nat :=
  match t with
  | 48 :: p :: rest =>
    if p = 120 ∨ p = 88 then
      match rest with
      | 95 :: rest2 => hexBody rest2
      | _ => hexBody rest
    else hexBody t
  | _ => hexBody t

/-- `int(s, 16)`: `None` models `ValueError`. -/
def pyInt16 (s : Str) : Option Int :=
  let t := (s.dropWhile isPyIntWs).reverse.dropWhile isPyIntWs |>.reverse
  match t with
  | 45 :: t1 => (pyInt16core t1).map (fun n => -(n : Int))
  | 43 :: t1 => (pyInt16core t1).map (fun n => (n : Int))
  | _ => (pyInt16core t).map (fun n => (n : Int))

/-- Whether `uuid.UUID(s)` succeeds for a string `s`. -/
def uuidOk (s : Str) : Bool :=
  let h1 := pyReplace (cs "urn:") [] s
  let h2 := pyReplace (cs "uuid:") [] h1
  let h3 := pyStrip [123, 125] h2
  let h4 := pyReplace [45] [] h3
  h4.length = 32 &&
    (match pyInt16 h4 with
     | some n => decide (0 ≤ n) && decide (n < 2 ^ 128)
     | none => false)

/-- `GeoCoreProvider._valid_id(identifier)`. -/
def valid_id : JsonValue → Bool
  | .jstr s => uuidOk s
  | _ => false

/-! ### `_to_geojson`: record-by-record GeoJSON assembly -/

/-- Key constants. -/
def itemsKey : Str := cs "Items"

/-- The reserved record identifier key. -/
def idKey : Str := cs "id"

/-- The record geometry key. -/
def coordsKey : Str := cs "coordinates"

/-- The GeoJSON `type` key. -/
def typeKey : Str := cs "type"

/-- The GeoJSON `geometry` key. -/
def geomKey : Str := cs "geometry"

/-- The GeoJSON `properties` key. -/
def propsKey : Str := cs "properties"

/-- The GeoJSON `features` key. -/
def featuresKey : Str := cs "features"

/-- The geometry dict `{'type': 'Polygon', 'coordinates': coords}`. -/
def polygonOf (coords : JsonValue) : JsonValue :=
  .jobj [(typeKey, .jstr (cs "Polygon")), (coordsKey, coords)]

/-- The feature dict as the loop body leaves it: the literal
`{'type': 'Feature', 'geometry': None}` is extended with `feature['id']`,
`feature['geometry']` is updated in place, and `feature['properties']` is
appended, giving this key order. -/
def mkFeature (geo idv : JsonValue) (props : List (Str × JsonValue)) : JsonValue :=
  .jobj [(typeKey, .jstr (cs "Feature")), (geomKey, geo), (idKey, idv),
         (propsKey, .jobj props)]

/-- The `{'type': 'FeatureCollection', 'features': features}` dict. -/
def collectionOf (fs : List JsonValue) : JsonValue :=
  .jobj [(typeKey, .jstr (cs "FeatureCollection")), (featuresKey, .jarr fs)]

/-- `item.pop('coordinates', [])` followed by the list coercion:
a list is kept; any other value is fed to `json.loads`, whose
`JSONDecodeError` (only) is caught and turned into `[]`, and which raises
`TypeError` on non-string input. -/
def coerceCoords : JsonValue → Except PyExc JsonValue
  | .jarr l => .ok (.jarr l)
  | .jstr s =>
    (match json_loads s with
     | .ok v => .ok v
     | .error _ => .ok (.jarr []))
  | _ => .error .typeError

/-- One iteration of the `_to_geojson` loop on a single item.
`none` models `continue` (the record is discarded).  `item.pop('id')`
has no default, so a missing `id` raises `KeyError`; a non-dict item has
no `.pop` and raises `AttributeError`. -/
def processItem (item : JsonValue) (skip_geometry : Bool) :
    Except PyExc (Option JsonValue) :=
  match item with
  | .jobj m =>
    (match jlookup m idKey with
     | none => .error .keyError
     | some idv =>
       if valid_id idv = false then .ok none
       else
         match skip_geometry with
         | true => .ok (some (mkFeature .jnull idv (eraseKey m idKey)))
         | false =>
           match coerceCoords (match jlookup (eraseKey m idKey) coordsKey with
               | some v => v
               | none => .jarr []) with
           | .error e => .error e
           | .ok coords =>
             .ok (some (mkFeature
               (if pyTruthy coords then polygonOf coords else .jnull)
               idv (eraseKey (eraseKey m idKey) coordsKey))))
  | _ => .error .attributeError

/-- The `_to_geojson` loop over the decoded items, in order. -/
def assembleFeatures (items : List JsonValue) (skip_geometry : Bool) :
    Except PyExc (List JsonValue) :=
  match items with
  | [] => .ok []
  | it :: rest =>
    match processItem it skip_geometry with
    | .error e => .error e
    | .ok o =>
      match assembleFeatures rest skip_geometry with
      | .error e => .error e
      | .ok fs =>
        match o with
        | none => .ok fs
        | some f => .ok (f :: fs)

/-- `GeoCoreProvider._to_geojson(json_obj, skip_geometry)`. -/
def to_geojson (json_obj : JsonValue) (skip_geometry : Bool) :
    Except PyExc JsonValue :=
  match pyGetD json_obj itemsKey (.jarr []) with
  | .error e => .error e
  | .ok itemsVal =>
    match pyIter itemsVal with
    | .error e => .error e
    | .ok items =>
      match assembleFeatures items skip_geometry with
      | .error e => .error e
      | .ok [] => .error .providerNoDataError
      | .ok [f] => .ok f
      | .ok fs => .ok (collectionOf fs)

/-! ### `query` and `get` -/

/-- A backend query parameter value: a bounding-box coordinate (opaque),
a string, or an integer. -/
inductive PVal (α : Type)
  | pnum (a : α)
  | pstr (s : Str)
  | pint (n : Int)
deriving DecidableEq

/-- Parameter-list lookup (first occurrence). -/
def plookup {α : Type} (ps : List (Str × PVal α)) (k : Str) : Option (PVal α) :=
  match ps with
  | [] => none
  | (k2, v) :: rest => if k2 = k then some v else plookup rest k

/-- The parameter dict built by `GeoCoreProvider.query` (lines 170-191):
a present bounding box `[minx, miny, maxx, maxy]` yields
`east=minx, west=maxx, north=maxy, south=miny`; an empty one yields
`keyword_only='true'`; unpacking a non-empty box of the wrong arity
raises `ValueError`; the 1-based paging keys `min = startindex + 1` and
`max = startindex + limit` are always appended. -/
def buildQueryParams {α : Type} (startindex limit : Int) (bbox : List α) :
    Except PyExc (List (Str × PVal α)) :=
  match bbox with
  | [] =>
    .ok [(cs "keyword_only", .pstr (cs "true")),
         (cs "min", .pint (startindex + 1)), (cs "max", .pint (startindex + limit))]
  | [minx, miny, maxx, maxy] =>
    .ok [(cs "east", .pnum minx), (cs "west", .pnum maxx),
         (cs "north", .pnum maxy), (cs "south", .pnum miny),
         (cs "min", .pint (startindex + 1)), (cs "max", .pint (startindex + limit))]
  | _ => .error .valueError

/-- `GeoCoreProvider.query`: build parameters, invoke the transport
(abstracted as `fetch`, standing for `_request_json`'s HTTP GET on the
query endpoint with transport failures already mapped to provider
errors), decode the body, assemble GeoJSON.  `resulttype` other than
`'results'` only logs a warning. -/
def query {α : Type} (fetch : List (Str × PVal α) → Except PyExc Str)
    (startindex limit : Int) (bbox : List α) (skip_geometry : Bool) :
    Except PyExc JsonValue :=
  match buildQueryParams startindex limit bbox with
  | .error e => .error e
  | .ok params =>
    match fetch params with
    | .error e => .error e
    | .ok body =>
      match parse_json body with
      | .error e => .error e
      | .ok json_obj => to_geojson json_obj skip_geometry

/-- `GeoCoreProvider.get(identifier)`: reject identifiers that are not
valid UUIDs before any transport call; fetch `{'id': identifier}` from
the id endpoint; decode; raise `ItemNotFoundError` when
`json_obj.get('Items', [])` is falsy (before assembling); otherwise
assemble with the default `skip_geometry=False`. -/
def get (fetch : List (Str × Str) → Except PyExc Str) (identifier : Str) :
    Except PyExc JsonValue :=
  if uuidOk identifier = false then .error .providerInvalidQueryError
  else
    match fetch [(idKey, identifier)] with
    | .error e => .error e
    | .ok body =>
      match parse_json body with
      | .error e => .error e
      | .ok json_obj =>
        match pyGetD json_obj itemsKey (.jarr []) with
        | .error e => .error e
        | .ok itemsVal =>
          if pyTruthy itemsVal = false then .error .providerItemNotFoundError
          else to_geojson json_obj false

/-! ### Auxiliary definitions used by the claim statements -/

/-- The `id` field of a feature dict. -/
def featureId (f : JsonValue) : Option JsonValue :=
  match f with
  | .jobj m => jlookup m idKey
  | _ => none

/-- The features of an assembled result: the wrapped list for a
collection, the result itself for a single feature. -/
def featuresOfResult (res : JsonValue) : List JsonValue :=
  match res with
  | .jobj m =>
    (match jlookup m featuresKey with
     | some (.jarr fs) => fs
     | _ => [res])
  | _ => [res]

/-- Whether a decoded JSON value is a mapping. -/
def jIsMapping : JsonValue → Bool
  | .jobj _ => true
  | _ => false

/-- The decoded value `_parse_json` ends up with once the repair pass has
succeeded: the parsed document, or the initial `{}` when parsing fails. -/
def jloadsD (r : Str) : JsonValue :=
  match json_loads r with
  | .ok v => v
  | .error _ => .jobj []

/-- The backend quirk serialization of an embedded fragment: every
double quote doubled (the fragment is then wrapped in `"""..."""` by
the surrounding quotes, cf. the regex). -/
def doubleQuotes : Str → Str
  | [] => []
  | c :: r => if c = qc then qc :: qc :: doubleQuotes r else c :: doubleQuotes r

/-- A syntactically valid canonical UUID used by several concrete inputs. -/
def uuidA : Str := cs "3fa85f64-5717-4562-b3fc-2c963f66afa6"

/-- The spec's own quirk example as a field value: `{"a": "[{""x"":1}]"}`. -/
def bodyQuirk : Str := cs "\x7b\"a\": \"[\x7b\"\"x\"\":1\x7d]\"\x7d"

/-- The equivalent body with the plain JSON array: `{"a": [{"x":1}]}`. -/
def bodyPlain : Str := cs "\x7b\"a\": [\x7b\"x\":1\x7d]\x7d"

/-- A record with a valid id whose `coordinates` field is JSON `null`. -/
def recNullCoords : JsonValue := .jobj [(idKey, .jstr uuidA), (coordsKey, .jnull)]

/-- A record with a valid id, a coordinates array and one other field. -/
def recWithCoords : JsonValue :=
  .jobj [(idKey, .jstr uuidA), (coordsKey, .jarr [.jint 1]),
         (cs "name", .jstr (cs "A"))]

/-- A response body with a single record, for exercising `get`. -/
def bodySingle : Str :=
  cs "\x7b\"Items\": [\x7b\"id\": \"3fa85f64-5717-4562-b3fc-2c963f66afa6\"\x7d]\x7d"

/-! ## Association-list and assembly lemmas -/

theorem keys_eraseKey_sublist (m : List (Str × JsonValue)) (k : Str) :
    ((eraseKey m k).map Prod.fst).Sublist (m.map Prod.fst) := by
  induction m with
  | nil => simp [eraseKey]
  | cons kv rest ih =>
    obtain ⟨k2, v⟩ := kv
    by_cases h : k2 = k
    · simp [eraseKey, h]
    · simpa [eraseKey, h] using ih.cons₂ k2

theorem jlookup_eraseKey_self (m : List (Str × JsonValue)) (k : Str)
    (h : (m.map Prod.fst).Nodup) : jlookup (eraseKey m k) k = none := by
  induction m with
  | nil => rfl
  | cons kv rest ih =>
    obtain ⟨k2, v⟩ := kv
    simp only [List.map_cons, List.nodup_cons] at h
    by_cases hk : k2 = k
    · subst hk
      simp only [eraseKey, if_pos rfl]
      clear ih
      induction rest with
      | nil => rfl
      | cons kv2 rest2 ih2 =>
        obtain ⟨k3, v3⟩ := kv2
        have hne : k3 ≠ k2 := by
          intro he
          exact h.1 (by simp [he])
        have : (rest2.map Prod.fst).Nodup := by
          have := h.2
          simp only [List.map_cons, List.nodup_cons] at this
          exact this.2
        have hmem : k2 ∉ rest2.map Prod.fst := by
          intro hm
          exact h.1 (by simp [hm])
        simp only [jlookup, if_neg hne]
        exact ih2 ⟨fun hm => hmem hm, this⟩
    · simp only [eraseKey, if_neg hk, jlookup, if_neg hk]
      exact ih h.2

theorem jlookup_eraseKey_ne (m : List (Str × JsonValue)) (k k2 : Str)
    (h : k ≠ k2) : jlookup (eraseKey m k2) k = jlookup m k := by
  induction m with
  | nil => rfl
  | cons kv rest ih =>
    obtain ⟨k3, v⟩ := kv
    by_cases h3 : k3 = k2
    · subst h3
      have hk : k3 ≠ k := fun he => h he.symm
      simp [eraseKey, jlookup, hk]
    · by_cases h4 : k3 = k
      · simp [eraseKey, jlookup, h3, h4, h]
      · simp [eraseKey, jlookup, h3, h4, ih]

theorem featureId_mkFeature (geo idv : JsonValue) (props : List (Str × JsonValue)) :
    featureId (mkFeature geo idv props) = some idv := rfl

theorem processItem_ok_some (item : JsonValue) (skip : Bool) (f : JsonValue)
    (h : processItem item skip = .ok (some f)) :
    ∃ geo idv props, f = mkFeature geo idv props ∧ valid_id idv = true := by
  match item with
  | .jnull | .jbool _ | .jint _ | .jfloat _ | .jstr _ | .jarr _ =>
    simp [processItem] at h
  | .jobj m =>
    simp only [processItem] at h
    split at h
    · exact Except.noConfusion h
    · rename_i idv heq
      split at h
      · exact Option.noConfusion (Except.ok.inj h)
      · rename_i h2
        have h2' : valid_id idv = true := by
          cases h3 : valid_id idv
          · exact absurd h3 h2
          · rfl
        split at h
        · exact ⟨_, _, _, (Option.some.inj (Except.ok.inj h)).symm, h2'⟩
        · split at h
          · exact Except.noConfusion h
          · exact ⟨_, _, _, (Option.some.inj (Except.ok.inj h)).symm, h2'⟩

/-- The assembled feature list consists of `mkFeature`s with valid ids. -/
theorem assembleFeatures_mem (items : List JsonValue) (skip : Bool) :
    ∀ fs : List JsonValue, assembleFeatures items skip = .ok fs →
    ∀ f ∈ fs, ∃ geo idv props, f = mkFeature geo idv props ∧ valid_id idv = true := by
  induction items with
  | nil =>
    intro fs h f hf
    simp only [assembleFeatures] at h
    cases h
    cases hf
  | cons it rest ih =>
    intro fs h f hf
    simp only [assembleFeatures] at h
    match h1 : processItem it skip with
    | .error e =>
      simp only [h1] at h
      exact Except.noConfusion h
    | .ok o =>
      simp only [h1] at h
      match h2 : assembleFeatures rest skip with
      | .error e =>
        simp only [h2] at h
        exact Except.noConfusion h
      | .ok fs2 =>
        simp only [h2] at h
        rcases o with _ | f2
        · have he : fs2 = fs := Except.ok.inj h
          subst he
          exact ih fs2 h2 f hf
        · have he : f2 :: fs2 = fs := Except.ok.inj h
          subst he
          cases hf with
          | head => exact processItem_ok_some it skip f h1
          | tail _ hf => exact ih fs2 h2 f hf

theorem featuresOfResult_mkFeature (geo idv : JsonValue)
    (props : List (Str × JsonValue)) :
    featuresOfResult (mkFeature geo idv props) = [mkFeature geo idv props] := rfl

theorem featuresOfResult_collectionOf (fs : List JsonValue) :
    featuresOfResult (collectionOf fs) = fs := rfl

/-- Case analysis of a successful `_to_geojson` run. -/
theorem to_geojson_ok (obj : JsonValue) (skip : Bool) (res : JsonValue)
    (h : to_geojson obj skip = .ok res) :
    ∃ iv items fs, pyGetD obj itemsKey (.jarr []) = .ok iv ∧
      pyIter iv = .ok items ∧ assembleFeatures items skip = .ok fs ∧
      ((∃ f, fs = [f] ∧ res = f) ∨ (2 ≤ fs.length ∧ res = collectionOf fs)) := by
  simp only [to_geojson] at h
  match h1 : pyGetD obj itemsKey (.jarr []) with
  | .error e =>
    simp only [h1] at h
    exact Except.noConfusion h
  | .ok iv =>
    simp only [h1] at h
    match h2 : pyIter iv with
    | .error e =>
      simp only [h2] at h
      exact Except.noConfusion h
    | .ok items =>
      simp only [h2] at h
      match h3 : assembleFeatures items skip with
      | .error e =>
        simp only [h3] at h
        exact Except.noConfusion h
      | .ok fs =>
        simp only [h3] at h
        match fs, h, h3 with
        | [], h, h3 => exact Except.noConfusion h
        | [f], h, h3 =>
          exact ⟨iv, items, [f], rfl, h2, h3, .inl ⟨f, rfl, (Except.ok.inj h).symm⟩⟩
        | a :: b :: l, h, h3 =>
          exact ⟨iv, items, a :: b :: l, rfl, h2, h3,
            .inr ⟨by simp, (Except.ok.inj h).symm⟩⟩

/-- Claim C2: for every search request with a bounding box
`[minX, minY, maxX, maxY]`, translation emits exactly the four backend
keys `east = minX`, `west = maxX`, `north = maxY`, `south = minY`
(followed by the always-present paging keys) and omits the keyword-only
flag; without a bounding box it emits the single `keyword_only` flag
instead of the four spatial keys. -/
theorem claim_C2 {α : Type} (a b c d : α) (si lim : Int) :
    (buildQueryParams si lim [a, b, c, d] =
      .ok [(cs "east", .pnum a), (cs "west", .pnum c),
           (cs "north", .pnum d), (cs "south", .pnum b),
           (cs "min", .pint (si + 1)), (cs "max", .pint (si + lim))] ∧
     plookup [(cs "east", (.pnum a : PVal α)), (cs "west", .pnum c),
           (cs "north", .pnum d), (cs "south", .pnum b),
           (cs "min", .pint (si + 1)), (cs "max", .pint (si + lim))]
         (cs "keyword_only") = none) ∧
    (buildQueryParams si lim ([] : List α) =
      .ok [(cs "keyword_only", .pstr (cs "true")),
           (cs "min", .pint (si + 1)), (cs "max", .pint (si + lim))] ∧
     plookup [(cs "keyword_only", (.pstr (cs "true") : PVal α)),
           (cs "min", .pint (si + 1)), (cs "max", .pint (si + lim))]
         (cs "east") = none ∧
     plookup [(cs "keyword_only", (.pstr (cs "true") : PVal α)),
           (cs "min", .pint (si + 1)), (cs "max", .pint (si + lim))]
         (cs "west") = none ∧
     plookup [(cs "keyword_only", (.pstr (cs "true") : PVal α)),
           (cs "min", .pint (si + 1)), (cs "max", .pint (si + lim))]
         (cs "north") = none ∧
     plookup [(cs "keyword_only", (.pstr (cs "true") : PVal α)),
           (cs "min", .pint (si + 1)), (cs "max", .pint (si + lim))]
         (cs "south") = none ∧
     plookup [(cs "keyword_only", (.pstr (cs "true") : PVal α)),
           (cs "min", .pint (si + 1)), (cs "max", .pint (si + lim))]
         (cs "keyword_only") = some (.pstr (cs "true"))) :=
  ⟨⟨rfl, rfl⟩, rfl, rfl, rfl, rfl, rfl, rfl⟩

/-- Claim C8: whenever translation produces a parameter mapping (bounding
box present as a four-tuple, or absent), that mapping contains the
1-based inclusive paging keys `min = startIndex + 1` and
`max = startIndex + limit`. -/
theorem claim_C8 {α : Type} (si lim : Int) (bbox : List α)
    (ps : List (Str × PVal α)) (h : buildQueryParams si lim bbox = .ok ps) :
    plookup ps (cs "min") = some (.pint (si + 1)) ∧
    plookup ps (cs "max") = some (.pint (si + lim)) := by
  match bbox with
  | [] =>
    simp only [buildQueryParams, Except.ok.injEq] at h
    subst h
    exact ⟨rfl, rfl⟩
  | [a, b, c, d] =>
    simp only [buildQueryParams, Except.ok.injEq] at h
    subst h
    exact ⟨rfl, rfl⟩
  | [_] | [_, _] | [_, _, _] | _ :: _ :: _ :: _ :: _ :: _ =>
    simp [buildQueryParams] at h

/-- Concrete paging instances of claim C8: `startIndex = 0, limit = 10`
gives `min = 1, max = 10`; `startIndex = 20, limit = 5` gives
`min = 21, max = 25`. -/
theorem claim_C8_witness :
    (plookup [(cs "keyword_only", (.pstr (cs "true") : PVal Int)),
        (cs "min", .pint 1), (cs "max", .pint 10)] (cs "min") =
          some (.pint 1) ∧
     plookup [(cs "keyword_only", (.pstr (cs "true") : PVal Int)),
        (cs "min", .pint 1), (cs "max", .pint 10)] (cs "max") =
          some (.pint 10)) ∧
    (plookup [(cs "east", (.pnum (1 : Int))), (cs "west", .pnum 3),
        (cs "north", .pnum 4), (cs "south", .pnum 2),
        (cs "min", .pint 21), (cs "max", .pint 25)] (cs "min") =
          some (.pint 21) ∧
     plookup [(cs "east", (.pnum (1 : Int))), (cs "west", .pnum 3),
        (cs "north", .pnum 4), (cs "south", .pnum 2),
        (cs "min", .pint 21), (cs "max", .pint 25)] (cs "max") =
          some (.pint 25)) :=
  ⟨claim_C8 0 10 ([] : List Int) _ rfl, claim_C8 20 5 [1, 2, 3, 4] _ rfl⟩

/-- Counterexample to claim C1 as stated: a body whose array field is
serialized as a quote-doubled string literal in the spec's §4.2 form
`"[{""x"":1}]"` is not repaired — the pattern requires three consecutive
quotes, which that form never contains — so the body still fails JSON
parsing and decodes to the empty mapping, while the equivalent plain body
decodes to a non-empty mapping. -/
theorem claim_C1_counterexample :
    parse_json bodyQuirk = .ok (.jobj []) ∧
    parse_json bodyPlain =
      .ok (.jobj [(cs "a", .jarr [.jobj [(cs "x", .jint 1)]])]) ∧
    (.jobj [] : JsonValue) ≠ .jobj [(cs "a", .jarr [.jobj [(cs "x", .jint 1)]])] :=
  ⟨rfl, rfl, by simp⟩

/-- Counterexample to claim C3 as stated: the body `5` decodes to the
integer `5`, which is not a mapping, and a body whose matched segment
contains a non-latin-1 character (here `€`) raises `UnicodeEncodeError`
from the repair pass, which runs outside the `try` block. -/
theorem claim_C3_counterexample :
    parse_json (cs "5") = .ok (.jint 5) ∧
    jIsMapping (.jint 5) = false ∧
    parse_json (cs "\x7b\"a\": \"\"\"€\"\"\"\x7d") = .error .unicodeEncodeError :=
  ⟨rfl, rfl, rfl⟩

/-- Counterexample to claim C7 as stated: with a valid id and
`skipGeometry` false, a `coordinates` value that is neither an array nor
a string (here `null`) is passed to `json.loads`, which raises
`TypeError`; the record is not kept as a Feature with null geometry. -/
theorem claim_C7_counterexample :
    valid_id (.jstr uuidA) = true ∧
    to_geojson (.jobj [(itemsKey, .jarr [recNullCoords])]) false =
      .error .typeError :=
  ⟨rfl, rfl⟩

/-- Counterexample to claim C9 as stated: when `skipGeometry` is true the
loop never pops `coordinates`, so the emitted Feature's properties still
contain the `coordinates` field. -/
theorem claim_C9_counterexample :
    to_geojson (.jobj [(itemsKey, .jarr [recWithCoords])]) true =
      .ok (mkFeature .jnull (.jstr uuidA)
        [(coordsKey, .jarr [.jint 1]), (cs "name", .jstr (cs "A"))]) ∧
    jlookup [(coordsKey, .jarr [.jint 1]), (cs "name", .jstr (cs "A"))]
      coordsKey = some (.jarr [.jint 1]) :=
  ⟨rfl, rfl⟩

/-- Shape of every successful `_to_geojson` result: a single feature dict
or a feature collection wrapping at least two features. -/
theorem to_geojson_ok_shape (obj : JsonValue) (skip : Bool) (res : JsonValue)
    (h : to_geojson obj skip = .ok res) :
    (∃ geo idv props, res = mkFeature geo idv props) ∨
    (∃ fs, 2 ≤ fs.length ∧ res = collectionOf fs) := by
  obtain ⟨iv, items, fs, h1, h2, h3, hc | hc⟩ := to_geojson_ok obj skip res h
  · obtain ⟨f, hfs, hres⟩ := hc
    obtain ⟨geo, idv, props, hf, _⟩ :=
      assembleFeatures_mem items skip fs h3 f (hfs ▸ List.mem_singleton_self f)
    exact .inl ⟨geo, idv, props, hres ▸ hf⟩
  · exact .inr ⟨fs, hc.1, hc.2⟩

/-- Claim C4: assembly fails with `NoDataError` exactly when the
assembled feature sequence is empty; a decoded mapping whose `Items`
sequence is absent or empty fails with `NoDataError`; a successful
assembly never returns an empty collection. -/
theorem claim_C4 :
    (∀ (obj : JsonValue) (skip : Bool) (iv : JsonValue) (items fs : List JsonValue),
      pyGetD obj itemsKey (.jarr []) = .ok iv → pyIter iv = .ok items →
      assembleFeatures items skip = .ok fs →
      (to_geojson obj skip = .error .providerNoDataError ↔ fs = [])) ∧
    (∀ (m : List (Str × JsonValue)) (skip : Bool),
      (jlookup m itemsKey = none ∨ jlookup m itemsKey = some (.jarr [])) →
      to_geojson (.jobj m) skip = .error .providerNoDataError) ∧
    (∀ (obj : JsonValue) (skip : Bool) (res : JsonValue),
      to_geojson obj skip = .ok res → featuresOfResult res ≠ []) := by
  refine ⟨?_, ?_, ?_⟩
  · intro obj skip iv items fs h1 h2 h3
    match fs with
    | [] => simp [to_geojson, h1, h2, h3]
    | [f] => simp [to_geojson, h1, h2, h3]
    | a :: b :: l => simp [to_geojson, h1, h2, h3]
  · intro m skip h
    rcases h with h | h <;>
      simp [to_geojson, pyGetD, h, pyIter, assembleFeatures]
  · intro obj skip res h
    obtain ⟨iv, items, fs, h1, h2, h3, hc | hc⟩ := to_geojson_ok obj skip res h
    · obtain ⟨f, hfs, hres⟩ := hc
      obtain ⟨geo, idv, props, hf, _⟩ :=
        assembleFeatures_mem items skip fs h3 f (hfs ▸ List.mem_singleton_self f)
      subst hres
      rw [hf, featuresOfResult_mkFeature]
      simp
    · obtain ⟨hlen, hres⟩ := hc
      subst hres
      rw [featuresOfResult_collectionOf]
      intro hfs
      rw [hfs] at hlen
      simp at hlen

/-- Concrete instance of claim C4: assembling a mapping with an empty
`Items` sequence fails with `NoDataError`. -/
theorem claim_C4_witness :
    to_geojson (.jobj [(itemsKey, .jarr [])]) false =
      .error .providerNoDataError :=
  claim_C4.2.1 [(itemsKey, .jarr [])] false (.inr rfl)

/-- Claim C5: `get` rejects identifiers that are not valid UUIDs with
`InvalidQueryError` for every possible transport (so before any network
call), and for a valid UUID whose decoded response has an absent or
empty `Items` sequence it fails with `ItemNotFoundError` (before
assembling, which is never invoked on such input). -/
theorem claim_C5 (fetch : List (Str × Str) → Except PyExc Str) (identifier : Str) :
    (uuidOk identifier = false →
      get fetch identifier = .error .providerInvalidQueryError) ∧
    (∀ (body : Str) (m : List (Str × JsonValue)),
      uuidOk identifier = true → fetch [(idKey, identifier)] = .ok body →
      parse_json body = .ok (.jobj m) →
      (jlookup m itemsKey = none ∨ jlookup m itemsKey = some (.jarr [])) →
      get fetch identifier = .error .providerItemNotFoundError) := by
  constructor
  · intro h
    simp [get, h]
  · intro body m hu hf hp hitems
    simp only [get, hu]
    rcases hitems with h | h <;>
      simp [hf, hp, pyGetD, h, pyTruthy]

/-- Concrete instances of claim C5: `"not-a-uuid"` is rejected before
any transport call, and a valid UUID whose response decodes to `{}`
yields `ItemNotFoundError`. -/
theorem claim_C5_witness :
    get (fun _ => .ok (cs "\x7b\x7d")) (cs "not-a-uuid") =
      .error .providerInvalidQueryError ∧
    get (fun _ => .ok (cs "\x7b\x7d")) uuidA =
      .error .providerItemNotFoundError :=
  ⟨(claim_C5 (fun _ => .ok (cs "\x7b\x7d")) (cs "not-a-uuid")).1 rfl,
   (claim_C5 (fun _ => .ok (cs "\x7b\x7d")) uuidA).2 (cs "\x7b\x7d") [] rfl rfl rfl
     (.inl rfl)⟩

/-- Claim C6: every feature of a successful assembly carries an id that
passed UUID validation, and a record whose id field is present but not a
valid UUID is discarded while assembly continues with the remaining
records (dropping it from the item sequence does not change the
result). -/
theorem claim_C6 :
    (∀ (obj : JsonValue) (skip : Bool) (res f : JsonValue),
      to_geojson obj skip = .ok res → f ∈ featuresOfResult res →
      ∃ idv, featureId f = some idv ∧ valid_id idv = true) ∧
    (∀ (l1 l2 : List JsonValue) (skip : Bool) (m : List (Str × JsonValue))
      (idv : JsonValue),
      jlookup m idKey = some idv → valid_id idv = false →
      assembleFeatures (l1 ++ .jobj m :: l2) skip =
        assembleFeatures (l1 ++ l2) skip) := by
  constructor
  · intro obj skip res f h hf
    obtain ⟨iv, items, fs, h1, h2, h3, hc | hc⟩ := to_geojson_ok obj skip res h
    · obtain ⟨f0, hfs, hres⟩ := hc
      obtain ⟨geo, idv, props, hf0, hval⟩ :=
        assembleFeatures_mem items skip fs h3 f0 (hfs ▸ List.mem_singleton_self f0)
      subst hres
      rw [hf0, featuresOfResult_mkFeature] at hf
      cases hf with
      | head => exact ⟨idv, featureId_mkFeature geo idv props, hval⟩
      | tail _ hm => cases hm
    · obtain ⟨hlen, hres⟩ := hc
      subst hres
      rw [featuresOfResult_collectionOf] at hf
      obtain ⟨geo, idv, props, hf0, hval⟩ :=
        assembleFeatures_mem items skip fs h3 f hf
      exact ⟨idv, hf0 ▸ featureId_mkFeature geo idv props, hval⟩
  · intro l1 l2 skip m idv hl hv
    induction l1 with
    | nil =>
      have hp : processItem (.jobj m) skip = .ok none := by
        simp [processItem, hl, hv]
      simp only [List.nil_append, assembleFeatures, hp]
      cases assembleFeatures l2 skip <;> rfl
    | cons it l1t ih =>
      simp [assembleFeatures, ih]

/-- Concrete instance of claim C6: a record with the malformed id
`"nope"` is dropped and assembly continues with the remaining records. -/
theorem claim_C6_witness :
    assembleFeatures ([JsonValue.jobj [(idKey, .jstr uuidA)]] ++
        JsonValue.jobj [(idKey, .jstr (cs "nope"))] :: []) false =
      assembleFeatures ([JsonValue.jobj [(idKey, .jstr uuidA)]] ++ []) false :=
  claim_C6.2 [JsonValue.jobj [(idKey, .jstr uuidA)]] [] false
    [(idKey, .jstr (cs "nope"))] (.jstr (cs "nope")) rfl rfl

/-- Claim C10: a successful assembly returns the single bare feature
when exactly one feature was produced and a `FeatureCollection` wrapping
the produced features in order when two or more were produced; every
successful `query` and `get` result therefore has one of those two
shapes. -/
theorem claim_C10 :
    (∀ (obj : JsonValue) (skip : Bool) (iv : JsonValue)
      (items fs : List JsonValue) (res : JsonValue),
      pyGetD obj itemsKey (.jarr []) = .ok iv → pyIter iv = .ok items →
      assembleFeatures items skip = .ok fs → to_geojson obj skip = .ok res →
      (∀ f, fs = [f] → res = f) ∧ (2 ≤ fs.length → res = collectionOf fs)) ∧
    (∀ (α : Type) (fetch : List (Str × PVal α) → Except PyExc Str)
      (si lim : Int) (bbox : List α) (skip : Bool) (res : JsonValue),
      query fetch si lim bbox skip = .ok res →
      (∃ geo idv props, res = mkFeature geo idv props) ∨
      (∃ fs, 2 ≤ fs.length ∧ res = collectionOf fs)) ∧
    (∀ (fetch : List (Str × Str) → Except PyExc Str) (identifier : Str)
      (res : JsonValue),
      get fetch identifier = .ok res →
      (∃ geo idv props, res = mkFeature geo idv props) ∨
      (∃ fs, 2 ≤ fs.length ∧ res = collectionOf fs)) := by
  refine ⟨?_, ?_, ?_⟩
  · intro obj skip iv items fs res h1 h2 h3 h4
    constructor
    · intro f hf
      subst hf
      simp only [to_geojson, h1, h2, h3] at h4
      exact (Except.ok.inj h4).symm
    · intro hlen
      match fs, hlen, h3 with
      | a :: b :: l, _, h3 =>
        simp only [to_geojson, h1, h2, h3] at h4
        exact (Except.ok.inj h4).symm
  · intro α fetch si lim bbox skip res h
    simp only [query] at h
    match hq : buildQueryParams si lim bbox with
    | .error e =>
      simp only [hq] at h
      exact Except.noConfusion h
    | .ok params =>
      simp only [hq] at h
      match hf : fetch params with
      | .error e =>
        simp only [hf] at h
        exact Except.noConfusion h
      | .ok body =>
        simp only [hf] at h
        match hp : parse_json body with
        | .error e =>
          simp only [hp] at h
          exact Except.noConfusion h
        | .ok obj =>
          simp only [hp] at h
          exact to_geojson_ok_shape obj skip res h
  · intro fetch identifier res h
    simp only [get] at h
    by_cases hu : uuidOk identifier = false
    · rw [if_pos hu] at h
      exact Except.noConfusion h
    · rw [if_neg hu] at h
      match hf : fetch [(idKey, identifier)] with
      | .error e =>
        simp only [hf] at h
        exact Except.noConfusion h
      | .ok body =>
        simp only [hf] at h
        match hp : parse_json body with
        | .error e =>
          simp only [hp] at h
          exact Except.noConfusion h
        | .ok obj =>
          simp only [hp] at h
          match hg : pyGetD obj itemsKey (.jarr []) with
          | .error e =>
            simp only [hg] at h
            exact Except.noConfusion h
          | .ok iv =>
            simp only [hg] at h
            by_cases ht : pyTruthy iv = false
            · rw [if_pos ht] at h
              exact Except.noConfusion h
            · rw [if_neg ht] at h
              exact to_geojson_ok_shape obj false res h

/-- Concrete instances of claim C10: a two-record input assembles to the
collection of both features in order, and a successful concrete `get`
has the single-feature-or-collection shape. -/
theorem claim_C10_witness :
    collectionOf [mkFeature .jnull (.jstr uuidA) [],
        mkFeature .jnull (.jstr uuidA) []] =
      collectionOf [mkFeature .jnull (.jstr uuidA) [],
        mkFeature .jnull (.jstr uuidA) []] ∧
    ((∃ geo idv props, mkFeature .jnull (.jstr uuidA) [] = mkFeature geo idv props) ∨
     (∃ fs, 2 ≤ fs.length ∧ mkFeature .jnull (.jstr uuidA) [] = collectionOf fs)) :=
  ⟨((claim_C10.1 (.jobj [(itemsKey, .jarr [.jobj [(idKey, .jstr uuidA)],
        .jobj [(idKey, .jstr uuidA)]])]) false
      (.jarr [.jobj [(idKey, .jstr uuidA)], .jobj [(idKey, .jstr uuidA)]])
      [.jobj [(idKey, .jstr uuidA)], .jobj [(idKey, .jstr uuidA)]]
      [mkFeature .jnull (.jstr uuidA) [], mkFeature .jnull (.jstr uuidA) []]
      (collectionOf [mkFeature .jnull (.jstr uuidA) [],
        mkFeature .jnull (.jstr uuidA) []])
      rfl rfl rfl rfl).2 (by simp)).symm,
   claim_C10.2.2 (fun _ => .ok bodySingle) uuidA
     (mkFeature .jnull (.jstr uuidA) []) rfl⟩

/-- Claim C7 (amended): for a record with a valid id and `skipGeometry`
false, a `coordinates` field that is absent, an empty array, or a string
that fails JSON parsing or parses to an empty array leaves the record in
the output as a Feature with null geometry; a non-empty array, or a
string parsing to a non-empty array, becomes a
`{type: Polygon, coordinates: <that array>}` geometry. -/
theorem claim_C7 (m : List (Str × JsonValue)) (idv : JsonValue)
    (hid : jlookup m idKey = some idv) (hv : valid_id idv = true) :
    (jlookup (eraseKey m idKey) coordsKey = none →
      processItem (.jobj m) false =
        .ok (some (mkFeature .jnull idv (eraseKey (eraseKey m idKey) coordsKey)))) ∧
    (jlookup (eraseKey m idKey) coordsKey = some (.jarr []) →
      processItem (.jobj m) false =
        .ok (some (mkFeature .jnull idv (eraseKey (eraseKey m idKey) coordsKey)))) ∧
    (∀ x xs, jlookup (eraseKey m idKey) coordsKey = some (.jarr (x :: xs)) →
      processItem (.jobj m) false =
        .ok (some (mkFeature (polygonOf (.jarr (x :: xs))) idv
          (eraseKey (eraseKey m idKey) coordsKey)))) ∧
    (∀ s e, jlookup (eraseKey m idKey) coordsKey = some (.jstr s) →
      json_loads s = .error e →
      processItem (.jobj m) false =
        .ok (some (mkFeature .jnull idv (eraseKey (eraseKey m idKey) coordsKey)))) ∧
    (∀ s, jlookup (eraseKey m idKey) coordsKey = some (.jstr s) →
      json_loads s = .ok (.jarr []) →
      processItem (.jobj m) false =
        .ok (some (mkFeature .jnull idv (eraseKey (eraseKey m idKey) coordsKey)))) ∧
    (∀ s x xs, jlookup (eraseKey m idKey) coordsKey = some (.jstr s) →
      json_loads s = .ok (.jarr (x :: xs)) →
      processItem (.jobj m) false =
        .ok (some (mkFeature (polygonOf (.jarr (x :: xs))) idv
          (eraseKey (eraseKey m idKey) coordsKey)))) := by
  refine ⟨?_, ?_, ?_, ?_, ?_, ?_⟩
  · intro hc
    simp [processItem, hid, hv, hc, coerceCoords, pyTruthy]
  · intro hc
    simp [processItem, hid, hv, hc, coerceCoords, pyTruthy]
  · intro x xs hc
    simp [processItem, hid, hv, hc, coerceCoords, pyTruthy]
  · intro s e hc hl
    simp [processItem, hid, hv, hc, coerceCoords, hl, pyTruthy]
  · intro s hc hl
    simp [processItem, hid, hv, hc, coerceCoords, hl, pyTruthy]
  · intro s x xs hc hl
    simp [processItem, hid, hv, hc, coerceCoords, hl, pyTruthy]

/-- Concrete instance of amended claim C7: a valid-id record without a
`coordinates` field is kept as a Feature with null geometry. -/
theorem claim_C7_witness :
    processItem (.jobj [(idKey, .jstr uuidA)]) false =
      .ok (some (mkFeature .jnull (.jstr uuidA) [])) :=
  (claim_C7 [(idKey, .jstr uuidA)] (.jstr uuidA) rfl rfl).1 rfl

/-- Claim C9 (amended): with `skipGeometry` false the emitted Feature's
properties are the record without its `id` and `coordinates` fields;
with `skipGeometry` true they are the record without `id` only, and a
present `coordinates` field is retained. -/
theorem claim_C9 (m : List (Str × JsonValue)) (idv : JsonValue)
    (hn : (m.map Prod.fst).Nodup) (hid : jlookup m idKey = some idv)
    (hv : valid_id idv = true) :
    (processItem (.jobj m) true =
        .ok (some (mkFeature .jnull idv (eraseKey m idKey))) ∧
      jlookup (eraseKey m idKey) idKey = none ∧
      (∀ c, jlookup m coordsKey = some c →
        jlookup (eraseKey m idKey) coordsKey = some c)) ∧
    (∀ f, processItem (.jobj m) false = .ok (some f) →
      ∃ geo, f = mkFeature geo idv (eraseKey (eraseKey m idKey) coordsKey) ∧
        jlookup (eraseKey (eraseKey m idKey) coordsKey) idKey = none ∧
        jlookup (eraseKey (eraseKey m idKey) coordsKey) coordsKey = none) := by
  have hneq : coordsKey ≠ idKey := by decide
  have hneq2 : idKey ≠ coordsKey := by decide
  have hn1 : ((eraseKey m idKey).map Prod.fst).Nodup :=
    (keys_eraseKey_sublist m idKey).nodup hn
  have hn2 : ((eraseKey (eraseKey m idKey) coordsKey).map Prod.fst).Nodup :=
    (keys_eraseKey_sublist (eraseKey m idKey) coordsKey).nodup hn1
  constructor
  · refine ⟨by simp [processItem, hid, hv], jlookup_eraseKey_self m idKey hn, ?_⟩
    intro c hc
    rw [jlookup_eraseKey_ne m coordsKey idKey hneq]
    exact hc
  · intro f h
    simp only [processItem, hid] at h
    rw [if_neg (by simp [hv])] at h
    match h4 : coerceCoords (match jlookup (eraseKey m idKey) coordsKey with
        | some v => v
        | none => .jarr []) with
    | .error e =>
      simp only [h4] at h
      exact Except.noConfusion h
    | .ok coords =>
      simp only [h4] at h
      refine ⟨if pyTruthy coords then polygonOf coords else .jnull,
        (Option.some.inj (Except.ok.inj h)).symm, ?_, ?_⟩
      · rw [jlookup_eraseKey_ne (eraseKey m idKey) idKey coordsKey hneq2]
        exact jlookup_eraseKey_self m idKey hn
      · exact jlookup_eraseKey_self (eraseKey m idKey) coordsKey hn1

/-- Concrete instance of amended claim C9: with `skipGeometry` true the
`coordinates` field remains in the properties, and `id` does not. -/
theorem claim_C9_witness :
    processItem (.jobj [(idKey, .jstr uuidA), (coordsKey, .jarr [.jint 1])]) true =
      .ok (some (mkFeature .jnull (.jstr uuidA) [(coordsKey, .jarr [.jint 1])])) ∧
    jlookup [(coordsKey, JsonValue.jarr [.jint 1])] idKey = none ∧
    jlookup [(coordsKey, JsonValue.jarr [.jint 1])] coordsKey =
      some (.jarr [.jint 1]) :=
  ⟨(claim_C9 [(idKey, .jstr uuidA), (coordsKey, .jarr [.jint 1])] (.jstr uuidA)
      (by decide) rfl rfl).1.1,
   (claim_C9 [(idKey, .jstr uuidA), (coordsKey, .jarr [.jint 1])] (.jstr uuidA)
      (by decide) rfl rfl).1.2.1,
   (claim_C9 [(idKey, .jstr uuidA), (coordsKey, .jarr [.jint 1])] (.jstr uuidA)
      (by decide) rfl rfl).1.2.2 (.jarr [.jint 1]) rfl⟩

/-- Claim C3 (amended): for every body whose repair pass succeeds (every
regex-matched segment is latin-1-encodable and escape-decodable), decode
returns, without raising, the parsed JSON value — a mapping whenever the
document is a JSON object, though other JSON documents are returned
as-is; an empty body, and any body that still fails JSON parsing after
the repair pass, decode to an empty mapping. -/
theorem claim_C3 (body : Str) :
    (body = [] → parse_json body = .ok (.jobj [])) ∧
    (∀ r, regexSub body = .ok r →
      parse_json body = .ok (jloadsD r) ∧
      (∀ e, json_loads r = .error e → parse_json body = .ok (.jobj []))) := by
  constructor
  · intro h
    subst h
    rfl
  · intro r hr
    by_cases hb : body = []
    · subst hb
      have hrr : ([] : Str) = r := Except.ok.inj hr
      cases hrr
      exact ⟨rfl, fun e he => rfl⟩
    · constructor
      · simp only [parse_json, if_neg hb, hr, jloadsD]
        cases json_loads r <;> rfl
      · intro e he
        simp only [parse_json, if_neg hb, hr, he]

/-- Concrete instance of claim C3: a body that is not valid JSON (and is
left unchanged by the repair pass) decodes to the empty mapping. -/
theorem claim_C3_witness :
    parse_json (cs "notjson") = .ok (.jobj []) :=
  ((claim_C3 (cs "notjson")).2 (cs "notjson") rfl).2 .jsonDecodeError rfl

/-! ## The repair pass on triple-quoted segments (claim C1)

`doubleQuotes` describes the backend's quirk serialization (every quote
of the embedded fragment doubled); the lemmas characterize the scan of
`ENCODED_JSON_REGEX.sub` on a body whose only triple-quote run is the
one delimiting such a segment. -/

theorem mem_doubleQuotes (t : Str) (x : Nat) (h : x ∈ doubleQuotes t) : x ∈ t := by
  induction t with
  | nil => cases h
  | cons c r ih =>
    simp only [doubleQuotes] at h
    by_cases hc : c = qc
    · rw [if_pos hc] at h
      simp only [List.mem_cons] at h
      rcases h with h | h | h
      · subst h
        simp [hc]
      · subst h
        simp [hc]
      · exact List.mem_cons_of_mem c (ih h)
    · rw [if_neg hc] at h
      simp only [List.mem_cons] at h
      rcases h with h | h
      · simp [h]
      · exact List.mem_cons_of_mem c (ih h)

theorem doubleQuotes_ne_nil (t : Str) (h : t ≠ []) : doubleQuotes t ≠ [] := by
  match t with
  | c :: r =>
    simp only [doubleQuotes]
    by_cases hc : c = qc <;> simp [hc]

theorem head_doubleQuotes (t : Str) (h : t.head? ≠ some qc) :
    (doubleQuotes t).head? = t.head? := by
  match t with
  | [] => rfl
  | c :: r =>
    have hc : c ≠ qc := by
      intro he
      exact h (by simp [he])
    simp [doubleQuotes, hc]

theorem startsTriple_of_three (s : Str) (h : startsTriple s = true) :
    ∃ r, s = qc :: qc :: qc :: r := by
  match s with
  | [] => exact Bool.noConfusion h
  | [a] => exact Bool.noConfusion h
  | [a, b] => exact Bool.noConfusion h
  | a :: b :: c :: r =>
    simp only [startsTriple, Bool.and_eq_true, decide_eq_true_eq] at h
    exact ⟨r, by rw [h.1.1, h.1.2, h.2]⟩

theorem hasTriple_of_startsTriple (s : Str) (h : startsTriple s = true) :
    hasTriple s = true := by
  obtain ⟨r, hr⟩ := startsTriple_of_three s h
  subst hr
  simp [hasTriple]

theorem startsTriple_false (s : Str) (h : hasTriple s = false) :
    startsTriple s = false := by
  cases hs : startsTriple s
  · rfl
  · rw [hasTriple_of_startsTriple s hs] at h
    exact Bool.noConfusion h

theorem hasTriple_cons_tail (x : Nat) (l : Str)
    (h : hasTriple (x :: l) = false) : hasTriple l = false := by
  match l with
  | [] => rfl
  | [a] => rfl
  | a :: b :: r =>
    simp only [hasTriple, Bool.or_eq_false_iff] at h
    exact h.2

/-- `startsTriple` only inspects the first three characters, so a tail
may be truncated to its first two characters after a cons. -/
theorem startsTriple_take (x : Nat) (p tail : Str) :
    startsTriple (x :: (p ++ tail)) = startsTriple (x :: (p ++ tail.take 2)) := by
  match p with
  | [] =>
    match tail with
    | [] => rfl
    | [a] => rfl
    | a :: b :: r => rfl
  | [a] =>
    match tail with
    | [] => rfl
    | b :: r => rfl
  | a :: b :: r => rfl

theorem findClose_length (l : Str) :
    ∀ cnt r, findClose l = some (cnt, r) → l.length = cnt.length + 3 + r.length := by
  induction l with
  | nil =>
    intro cnt r h
    exact Option.noConfusion h
  | cons x l ih =>
    intro cnt r h
    simp only [findClose] at h
    by_cases hx : x = nlc
    · rw [if_pos hx] at h
      exact Option.noConfusion h
    · rw [if_neg hx] at h
      by_cases hs : startsTriple l = true
      · rw [if_pos hs] at h
        obtain ⟨l2, hl2⟩ := startsTriple_of_three l hs
        have h2 := Option.some.inj h
        have hcnt : [x] = cnt := congrArg Prod.fst h2
        have hr : l.drop 3 = r := congrArg Prod.snd h2
        subst hl2
        simp only [List.drop_succ_cons, List.drop_zero] at hr
        rw [← hcnt, ← hr]
        simp only [List.length_cons, List.length_nil]
        omega
      · rw [if_neg (by simpa using hs)] at h
        match hfc : findClose l with
        | some (c, r2) =>
          rw [hfc] at h
          have h2 := Option.some.inj h
          have hcnt : x :: c = cnt := congrArg Prod.fst h2
          have hr : r2 = r := congrArg Prod.snd h2
          have := ih c r2 hfc
          rw [← hcnt, ← hr]
          simp only [List.length_cons] at this ⊢
          omega
        | none =>
          rw [hfc] at h
          exact Option.noConfusion h

/-- Inside a segment with no triple quote (even adjoining two closing
quotes), the scan cannot find an early close. -/
theorem startsTriple_append_false (s post : Str) (hne : s ≠ [])
    (h : hasTriple (s ++ [qc, qc]) = false) :
    startsTriple (s ++ ([qc, qc, qc] ++ post)) = false := by
  match s with
  | [e] =>
    by_cases he : e = qc
    · exfalso
      subst he
      simp [hasTriple] at h
    · simp [startsTriple, he]
  | [e, f] =>
    by_cases he : e = qc
    · by_cases hf : f = qc
      · exfalso
        subst he
        subst hf
        simp [hasTriple] at h
      · simp [startsTriple, he, hf]
    · simp [startsTriple, he]
  | e :: f :: g :: r =>
    by_cases he : e = qc
    · by_cases hf : f = qc
      · by_cases hg : g = qc
        · exfalso
          subst he
          subst hf
          subst hg
          simp [hasTriple] at h
        · simp [startsTriple, he, hf, hg]
      · simp [startsTriple, he, hf]
    · simp [startsTriple, he]

/-- The non-greedy close lands exactly at the closing triple quote when
the content has no newline and no triple-quote run. -/
theorem findClose_exact (D post : Str) (hne : D ≠ []) (hnl : nlc ∉ D)
    (hD : hasTriple (D ++ [qc, qc]) = false) :
    findClose (D ++ ([qc, qc, qc] ++ post)) = some (D, post) := by
  induction D with
  | nil => exact absurd rfl hne
  | cons d Dt ih =>
    have hd : d ≠ nlc := by
      intro he
      exact hnl (by simp [he])
    match Dt with
    | [] =>
      simp only [List.cons_append, List.nil_append, findClose, if_neg hd]
      rw [if_pos (by simp [startsTriple])]
      rfl
    | e :: Dt2 =>
      have hst : startsTriple ((e :: Dt2) ++ ([qc, qc, qc] ++ post)) = false :=
        startsTriple_append_false (e :: Dt2) post (by simp)
          (hasTriple_cons_tail d _ hD)
      have hrec : findClose ((e :: Dt2) ++ ([qc, qc, qc] ++ post)) =
          some (e :: Dt2, post) :=
        ih (by simp) (fun hm => hnl (List.mem_cons_of_mem d hm))
          (hasTriple_cons_tail d _ hD)
      simp only [List.cons_append, findClose, if_neg hd] at hrec ⊢
      rw [if_neg (by simpa using hst), hrec]

/-- The scan result does not depend on the fuel once it exceeds the
input length. -/
theorem regexSubF_irrel : ∀ fu fu2 s, s.length < fu → s.length < fu2 →
    regexSubF fu s = regexSubF fu2 s := by
  intro fu
  induction fu with
  | zero =>
    intro fu2 s h _
    exact absurd h (by omega)
  | succ fu ih =>
    intro fu2 s h h2
    match fu2, s with
    | fu2 + 1, [] => rfl
    | fu2 + 1, x :: l =>
      simp only [List.length_cons] at h h2
      simp only [regexSubF]
      by_cases hs : startsTriple (x :: l) = true
      · rw [if_pos hs, if_pos hs]
        match hfc : findClose (l.drop 2) with
        | some (cnt, r) =>
          have hlen := findClose_length (l.drop 2) cnt r hfc
          have hdrop := List.length_drop 2 l
          have hr1 : r.length < fu := by omega
          have hr2 : r.length < fu2 := by omega
          show (match pyUnescape ([qc, qc, qc] ++ cnt ++ [qc, qc, qc]) with
                | Except.error e => Except.error e
                | Except.ok u =>
                  match regexSubF fu r with
                  | Except.ok rest => Except.ok (u ++ rest)
                  | Except.error e => Except.error e) =
              (match pyUnescape ([qc, qc, qc] ++ cnt ++ [qc, qc, qc]) with
                | Except.error e => Except.error e
                | Except.ok u =>
                  match regexSubF fu2 r with
                  | Except.ok rest => Except.ok (u ++ rest)
                  | Except.error e => Except.error e)
          simp only [ih fu2 r hr1 hr2]
        | none =>
          show (match regexSubF fu l with
                | Except.ok rest => Except.ok (x :: rest)
                | Except.error e => Except.error e) =
              (match regexSubF fu2 l with
                | Except.ok rest => Except.ok (x :: rest)
                | Except.error e => Except.error e)
          simp only [ih fu2 l (by omega : l.length < fu) (by omega : l.length < fu2)]
      · rw [if_neg hs, if_neg hs]
        simp only [ih fu2 l (by omega : l.length < fu) (by omega : l.length < fu2)]

/-- One scan step at a position where no match starts. -/
theorem regexSub_cons (x : Nat) (l : Str) (h : startsTriple (x :: l) = false) :
    regexSub (x :: l) = match regexSub l with
      | .ok rest => .ok (x :: rest)
      | .error e => .error e := by
  show regexSubF ((x :: l).length + 1) (x :: l) = _
  simp only [List.length_cons, regexSubF]
  rw [if_neg (by simp [h])]
  rfl

/-- One scan step at a match: replace `group(0)` by the callback result
and resume after the closing quotes. -/
theorem regexSub_match (rest cnt r : Str) (hfc : findClose rest = some (cnt, r)) :
    regexSub (qc :: qc :: qc :: rest) =
      match pyUnescape ([qc, qc, qc] ++ cnt ++ [qc, qc, qc]) with
      | .error e => .error e
      | .ok u =>
        match regexSub r with
        | .ok rr => .ok (u ++ rr)
        | .error e => .error e := by
  have hrl : r.length < rest.length := by
    have := findClose_length rest cnt r hfc
    omega
  show regexSubF ((qc :: qc :: qc :: rest).length + 1) (qc :: qc :: qc :: rest) = _
  simp only [List.length_cons, regexSubF]
  rw [if_pos (by simp [startsTriple])]
  rw [show (qc :: qc :: rest).drop 2 = rest from rfl, hfc]
  show (match pyUnescape ([qc, qc, qc] ++ cnt ++ [qc, qc, qc]) with
        | Except.error e => Except.error e
        | Except.ok u =>
          match regexSubF (rest.length + 1 + 1 + 1) r with
          | Except.ok rr => Except.ok (u ++ rr)
          | Except.error e => Except.error e) =
      (match pyUnescape ([qc, qc, qc] ++ cnt ++ [qc, qc, qc]) with
        | Except.error e => Except.error e
        | Except.ok u =>
          match regexSub r with
          | Except.ok rr => Except.ok (u ++ rr)
          | Except.error e => Except.error e)
  simp only [regexSubF_irrel (rest.length + 1 + 1 + 1) (r.length + 1) r
    (by omega) (by omega)]
  rfl

/-- A body with no triple-quote run is left unchanged by the repair. -/
theorem regexSub_id (s : Str) (h : hasTriple s = false) : regexSub s = .ok s := by
  induction s with
  | nil => rfl
  | cons x l ih =>
    rw [regexSub_cons x l (startsTriple_false (x :: l) h),
      ih (hasTriple_cons_tail x l h)]

/-- The scan passes over a prefix containing no match start (also not
one straddling into the tail). -/
theorem regexSub_scan_pre (pre tail : Str)
    (h : hasTriple (pre ++ tail.take 2) = false) :
    regexSub (pre ++ tail) = match regexSub tail with
      | .ok u => .ok (pre ++ u)
      | .error e => .error e := by
  induction pre with
  | nil =>
    simp only [List.nil_append]
    cases regexSub tail <;> rfl
  | cons x p ih =>
    have h1 : startsTriple (x :: (p ++ tail)) = false := by
      rw [startsTriple_take x p tail]
      exact startsTriple_false (x :: (p ++ tail.take 2)) h
    rw [List.cons_append, regexSub_cons x (p ++ tail) h1,
      ih (hasTriple_cons_tail x (p ++ tail.take 2) h)]
    cases regexSub tail <;> rfl

/-- `str.replace` does not depend on the fuel once it exceeds the input
length. -/
theorem pyReplaceF_irrel (pat rep : Str) : ∀ fu fu2 s, s.length < fu →
    s.length < fu2 → pyReplaceF pat rep fu s = pyReplaceF pat rep fu2 s := by
  intro fu
  induction fu with
  | zero =>
    intro fu2 s h _
    exact absurd h (by omega)
  | succ fu ih =>
    intro fu2 s h h2
    match fu2, s with
    | fu2 + 1, [] => rfl
    | fu2 + 1, x :: r =>
      simp only [List.length_cons] at h h2
      simp only [pyReplaceF]
      by_cases hc : pat ≠ [] ∧ (x :: r).take pat.length = pat
      · rw [if_pos hc, if_pos hc]
        have hp1 : 1 ≤ pat.length := by
          cases hp : pat with
          | nil => exact absurd hp hc.1
          | cons a b => simp
        have hlen : ((x :: r).drop pat.length).length < fu := by
          simp only [List.length_drop, List.length_cons]
          omega
        have hlen2 : ((x :: r).drop pat.length).length < fu2 := by
          simp only [List.length_drop, List.length_cons]
          omega
        rw [ih fu2 _ hlen hlen2]
      · rw [if_neg hc, if_neg hc, ih fu2 r (by omega) (by omega)]

/-- The scan equation of `.replace`, one step at a time. -/
theorem pyReplaceF_step (pat rep : Str) (fu : Nat) (x : Nat) (r : Str) :
    pyReplaceF pat rep (fu + 1) (x :: r) =
      if pat ≠ [] ∧ (x :: r).take pat.length = pat then
        rep ++ pyReplaceF pat rep fu ((x :: r).drop pat.length)
      else
        x :: pyReplaceF pat rep fu r := rfl

/-- One replacement step of `.replace('""', '"')` at a doubled quote. -/
theorem pyReplace_qq_step (r : Str) :
    pyReplace [qc, qc] [qc] (qc :: qc :: r) = qc :: pyReplace [qc, qc] [qc] r := by
  show pyReplaceF [qc, qc] [qc] (r.length + 1 + 1 + 1) (qc :: qc :: r) = _
  rw [pyReplaceF_step]
  rw [if_pos (⟨by simp, rfl⟩ :
    ([qc, qc] : Str) ≠ [] ∧
      (qc :: qc :: r).take ([qc, qc] : Str).length = [qc, qc])]
  rw [show (qc :: qc :: r).drop ([qc, qc] : Str).length = r from rfl]
  rw [pyReplaceF_irrel [qc, qc] [qc] (r.length + 1 + 1) (r.length + 1) r
    (by omega) (by omega)]
  rfl

/-- A scan step of `.replace('""', '"')` at a position with no doubled
quote. -/
theorem pyReplace_qq_nostep (x : Nat) (r : Str)
    (h : (x :: r).take 2 ≠ [qc, qc]) :
    pyReplace [qc, qc] [qc] (x :: r) = x :: pyReplace [qc, qc] [qc] r := by
  show pyReplaceF [qc, qc] [qc] (r.length + 1 + 1) (x :: r) = _
  rw [pyReplaceF_step]
  rw [if_neg (fun hc => h hc.2)]
  rfl

/-- Collapsing the doubled quotes of a quirk segment followed by the
closing quotes: the doubling alignment is restored exactly. -/
theorem pyReplace_double (t : Str) :
    pyReplace [qc, qc] [qc] (doubleQuotes t ++ [qc, qc, qc]) = t ++ [qc, qc] := by
  induction t with
  | nil =>
    show pyReplace [qc, qc] [qc] (qc :: qc :: [qc]) = [qc, qc]
    rw [pyReplace_qq_step [qc]]
    rw [pyReplace_qq_nostep qc [] (by simp)]
    rfl
  | cons c t ih =>
    by_cases hc : c = qc
    · subst hc
      have hd : doubleQuotes (qc :: t) = qc :: qc :: doubleQuotes t := by
        simp [doubleQuotes]
      rw [hd, List.cons_append, List.cons_append,
        pyReplace_qq_step (doubleQuotes t ++ [qc, qc, qc]), ih]
      rfl
    · have hd : doubleQuotes (c :: t) = c :: doubleQuotes t := by
        simp [doubleQuotes, hc]
      have hns : (c :: (doubleQuotes t ++ [qc, qc, qc])).take 2 ≠ [qc, qc] := by
        intro hh
        have : c = qc := by
          have := congrArg List.head? hh
          simpa using this
        exact hc this
      rw [hd, List.cons_append, pyReplace_qq_nostep c _ hns, ih]
      rfl

/-- `unicode_escape` decoding is the identity on backslash-free bytes. -/
theorem unicodeEscF_id : ∀ fu s, s.length < fu → bsc ∉ s →
    unicodeEscF fu s = .ok s := by
  intro fu
  induction fu with
  | zero =>
    intro s h _
    exact absurd h (by omega)
  | succ fu ih =>
    intro s h hb
    match s with
    | [] => rfl
    | b :: r =>
      have hbb : b ≠ 92 := fun he => hb (by simp [bsc, he])
      simp only [List.length_cons] at h
      simp only [unicodeEscF]
      rw [if_pos hbb,
        ih r (by omega) (fun hm => hb (List.mem_cons_of_mem b hm))]

/-- `unicode_escape` decoding is the identity on backslash-free bytes. -/
theorem unicodeEsc_id (s : Str) (hb : bsc ∉ s) : unicodeEsc s = .ok s :=
  unicodeEscF_id (s.length + 1) s (by omega) hb

/-- `latin1` encoding succeeds on code points up to 255. -/
theorem latin1Encode_ok (s : Str) (h : ∀ c ∈ s, c ≤ 255) :
    latin1Encode s = .ok s := by
  have : s.all (· ≤ 255) = true := by
    rw [List.all_eq_true]
    intro x hx
    simpa using h x hx
  simp [latin1Encode, this]

/-- Stripping the quotes left at both ends after undoubling. -/
theorem pyStrip_qq (t : Str) (hhead : t.head? ≠ some qc)
    (hlast : t.getLast? ≠ some qc) :
    pyStrip [qc] ([qc, qc] ++ t ++ [qc, qc]) = t := by
  match t with
  | [] => rfl
  | t0 :: t1 =>
    have h0 : t0 ≠ qc := fun he => hhead (by simp [he])
    have hrevne : (t0 :: t1).reverse ≠ [] := by simp
    obtain ⟨r0, rr, hr⟩ := List.exists_cons_of_ne_nil hrevne
    have hr0 : r0 ≠ qc := by
      intro he
      apply hlast
      rw [← List.head?_reverse, hr, he]
      rfl
    show ((([qc, qc] ++ (t0 :: t1) ++ [qc, qc]).dropWhile
        (· ∈ ([qc] : Str))).reverse.dropWhile (· ∈ ([qc] : Str))).reverse = t0 :: t1
    rw [show ([qc, qc] ++ (t0 :: t1) ++ [qc, qc] : Str) =
      qc :: qc :: ((t0 :: t1) ++ [qc, qc]) by simp]
    rw [List.dropWhile_cons_of_pos (by simp),
      List.dropWhile_cons_of_pos (by simp)]
    rw [show ((t0 :: t1) ++ [qc, qc] : Str) = t0 :: (t1 ++ [qc, qc]) from rfl]
    rw [List.dropWhile_cons_of_neg (by simp [h0])]
    rw [show (t0 :: (t1 ++ [qc, qc]) : Str) = (t0 :: t1) ++ [qc, qc] from rfl]
    rw [List.reverse_append, hr]
    rw [show (([qc, qc] : Str).reverse ++ (r0 :: rr)) =
      qc :: qc :: (r0 :: rr) from rfl]
    rw [List.dropWhile_cons_of_pos (by simp),
      List.dropWhile_cons_of_pos (by simp),
      List.dropWhile_cons_of_neg (by simp [hr0])]
    rw [← hr, List.reverse_reverse]

/-- The `unescape` callback inverts the quirk serialization of a
fragment with no backslash and latin-1 characters only: it unescapes
(vacuously), collapses the doubled quotes and strips the delimiting
quotes. -/
theorem pyUnescape_triple (t : Str) (hne : t ≠ []) (hhead : t.head? ≠ some qc)
    (hlast : t.getLast? ≠ some qc) (hbs : bsc ∉ t) (hlat : ∀ c ∈ t, c ≤ 255) :
    pyUnescape ([qc, qc, qc] ++ doubleQuotes t ++ [qc, qc, qc]) = .ok t := by
  have hmem : ∀ c ∈ [qc, qc, qc] ++ doubleQuotes t ++ [qc, qc, qc], c ≤ 255 := by
    intro c hcm
    rw [List.mem_append, List.mem_append] at hcm
    rcases hcm with (hcm | hcm) | hcm
    · have : c = qc := by simpa using hcm
      subst this
      decide
    · exact hlat c (mem_doubleQuotes t c hcm)
    · have : c = qc := by simpa using hcm
      subst this
      decide
  have hbsm : bsc ∉ [qc, qc, qc] ++ doubleQuotes t ++ [qc, qc, qc] := by
    intro hm
    rw [List.mem_append, List.mem_append] at hm
    rcases hm with (hm | hm) | hm
    · simp [bsc, qc] at hm
    · exact hbs (mem_doubleQuotes t bsc hm)
    · simp [bsc, qc] at hm
  simp only [pyUnescape, latin1Encode_ok _ hmem, unicodeEsc_id _ hbsm]
  obtain ⟨d0, dr, hd⟩ :=
    List.exists_cons_of_ne_nil (doubleQuotes_ne_nil t hne)
  have hd0 : d0 ≠ qc := by
    intro he
    have := head_doubleQuotes t hhead
    rw [hd, he] at this
    exact hhead this.symm
  have hstep2 : (qc :: (doubleQuotes t ++ [qc, qc, qc])).take 2 ≠ [qc, qc] := by
    rw [hd]
    intro hh
    have : d0 = qc := by
      have := congrArg (fun l => l.drop 1 |>.head?) hh
      simpa using this
    exact hd0 this
  rw [show ([qc, qc, qc] ++ doubleQuotes t ++ [qc, qc, qc] : Str) =
    qc :: qc :: (qc :: (doubleQuotes t ++ [qc, qc, qc])) by simp]
  rw [pyReplace_qq_step (qc :: (doubleQuotes t ++ [qc, qc, qc]))]
  rw [pyReplace_qq_nostep qc (doubleQuotes t ++ [qc, qc, qc]) hstep2]
  rw [pyReplace_double t]
  rw [show (qc :: qc :: (t ++ [qc, qc]) : Str) = [qc, qc] ++ t ++ [qc, qc] by simp]
  rw [pyStrip_qq t hhead hlast]

theorem hasTriple_cons_eq (x : Nat) (l : Str) :
    hasTriple (x :: l) = (startsTriple (x :: l) || hasTriple l) := by
  match l with
  | [] => rfl
  | [a] => rfl
  | a :: b :: r => rfl

/-- A match start survives padding the tail with two quotes. -/
theorem startsTriple_pad (x : Nat) (p tail : Str)
    (h : startsTriple (x :: (p ++ tail)) = true) :
    startsTriple (x :: (p ++ [qc, qc])) = true := by
  match p with
  | [] =>
    obtain ⟨r, hr⟩ := startsTriple_of_three _ h
    have hx : x = qc := by
      have := congrArg List.head? hr
      simpa using this
    subst hx
    simp [startsTriple]
  | [a] =>
    obtain ⟨r, hr⟩ := startsTriple_of_three _ h
    have hx : x = qc := by
      have := congrArg List.head? hr
      simpa using this
    have ha : a = qc := by
      have := congrArg (fun l => (l.drop 1).head?) hr
      simpa using this
    subst hx
    subst ha
    simp [startsTriple]
  | a :: b2 :: r2 => exact h

/-- Concatenating two triple-free texts stays triple-free when the first
remains triple-free even when two quotes are appended (which rules out a
run straddling the boundary). -/
theorem hasTriple_append (a b : Str) (ha : hasTriple (a ++ [qc, qc]) = false)
    (hb : hasTriple b = false) : hasTriple (a ++ b) = false := by
  induction a with
  | nil => simpa using hb
  | cons x p ih =>
    rw [List.cons_append, hasTriple_cons_eq]
    have htail : hasTriple (p ++ b) = false :=
      ih (hasTriple_cons_tail x (p ++ [qc, qc]) ha)
    have hst : startsTriple (x :: (p ++ b)) = false := by
      cases hs : startsTriple (x :: (p ++ b))
      · rfl
      · exfalso
        have h2 := startsTriple_pad x p b hs
        have h3 : hasTriple ((x :: p) ++ [qc, qc]) = true :=
          hasTriple_of_startsTriple _ h2
        rw [h3] at ha
        exact Bool.noConfusion ha
    rw [hst, htail]
    rfl

/-- The repair pass on a body whose only triple-quote run delimits a
quirk-serialized fragment: the match is located, unescaped and
undoubled, and the rest of the body is left unchanged. -/
theorem regexSub_repair (pre t post : Str)
    (hpre : hasTriple (pre ++ [qc, qc]) = false)
    (hD : hasTriple (doubleQuotes t ++ [qc, qc]) = false)
    (hpost : hasTriple post = false)
    (hne : t ≠ []) (hhead : t.head? ≠ some qc) (hlast : t.getLast? ≠ some qc)
    (hnl : nlc ∉ t) (hbs : bsc ∉ t) (hlat : ∀ c ∈ t, c ≤ 255) :
    regexSub (pre ++ (qc :: qc :: qc ::
        (doubleQuotes t ++ ([qc, qc, qc] ++ post)))) =
      .ok (pre ++ (t ++ post)) := by
  have hnlD : nlc ∉ doubleQuotes t := fun hm => hnl (mem_doubleQuotes t nlc hm)
  have hfc := findClose_exact (doubleQuotes t) post
    (doubleQuotes_ne_nil t hne) hnlD hD
  rw [regexSub_scan_pre pre _ (by simpa using hpre)]
  simp only [regexSub_match (doubleQuotes t ++ ([qc, qc, qc] ++ post))
      (doubleQuotes t) post hfc,
    pyUnescape_triple t hne hhead hlast hbs hlat, regexSub_id post hpost]

/-- Claim C1 (amended): the embedded-string quirk the regex repairs is
the triple-quoted form: when an array-valued field is serialized as
`"""D"""` with `D` the array text with every internal quote doubled
(newline- and backslash-free, latin-1, no stray triple-quote runs in the
body, content not starting or ending in a quote), decoding the body
yields the same structured JSON value as decoding the equivalent body
with the plain array text in place of the quoted form. -/
theorem claim_C1 (pre t post : Str)
    (hpre : hasTriple (pre ++ [qc, qc]) = false)
    (hD : hasTriple (doubleQuotes t ++ [qc, qc]) = false)
    (htq : hasTriple (t ++ [qc, qc]) = false)
    (hpost : hasTriple post = false)
    (hne : t ≠ []) (hhead : t.head? ≠ some qc) (hlast : t.getLast? ≠ some qc)
    (hnl : nlc ∉ t) (hbs : bsc ∉ t) (hlat : ∀ c ∈ t, c ≤ 255) :
    parse_json (pre ++ [qc, qc, qc] ++ doubleQuotes t ++ [qc, qc, qc] ++ post) =
      parse_json (pre ++ t ++ post) := by
  have hb1 : pre ++ [qc, qc, qc] ++ doubleQuotes t ++ [qc, qc, qc] ++ post =
      pre ++ (qc :: qc :: qc :: (doubleQuotes t ++ ([qc, qc, qc] ++ post))) := by
    simp
  have hb2 : pre ++ t ++ post = pre ++ (t ++ post) := by simp
  rw [hb1, hb2]
  have hsub1 := regexSub_repair pre t post hpre hD hpost hne hhead hlast hnl
    hbs hlat
  have hTall : hasTriple (pre ++ (t ++ post)) = false :=
    hasTriple_append pre (t ++ post) hpre (hasTriple_append t post htq hpost)
  have hsub2 := regexSub_id _ hTall
  have hne1 : pre ++ (qc :: qc :: qc ::
      (doubleQuotes t ++ ([qc, qc, qc] ++ post))) ≠ [] := by simp
  have hne2 : pre ++ (t ++ post) ≠ [] := by simp [hne]
  simp only [parse_json, if_neg hne1, if_neg hne2, hsub1, hsub2]

/-- Concrete instance of amended claim C1: the quirk body
`{"a": """[{""x"":1}]"""}` decodes to the same value as the plain body
`{"a": [{"x":1}]}`. -/
theorem claim_C1_witness :
    parse_json (cs "\x7b\"a\": " ++ [qc, qc, qc] ++
        doubleQuotes (cs "[\x7b\"x\":1\x7d]") ++ [qc, qc, qc] ++ cs "\x7d") =
      parse_json (cs "\x7b\"a\": " ++ cs "[\x7b\"x\":1\x7d]" ++ cs "\x7d") :=
  claim_C1 (cs "\x7b\"a\": ") (cs "[\x7b\"x\":1\x7d]") (cs "\x7d")
    (by decide) (by decide) (by decide) (by decide) (by decide) (by decide)
    (by decide) (by decide) (by decide) (by decide)

end Cgp
